import Mathlib

/-!
Verification of the `reqwest` fluent HTTP request-builder package and the
correlation logger from this repository.

The Go code is shallowly embedded: builders become records, chained methods
become functions on those records, Go `nil` maps become `Option`, a Go panic
becomes an explicit `GoOutcome.panics` result, and the transport
(`http.Client.Do`) becomes an oracle parameter.  The JSON collaborator
(`encoding/json`, which the repository delegates to) is modelled by an
executable encoder and decoder over a JSON value type.
-/

namespace Reqwest

/-- Errors as produced through the `github.com/pkg/errors` package:
`errors.New` / sentinel errors are `base`, `json.Marshal` failures are
`marshalError`, `http.NewRequest` failures are `newRequestError`,
`errors.WithStack` and `errors.Wrapf` wrap an underlying cause. -/
inductive GoError where
  | base (msg : String)
  | marshalError (msg : String)
  | newRequestError (msg : String)
  | transportError (msg : String)
  | withStack (e : GoError)
  | wrapf (msg : String) (e : GoError)
deriving Repr, DecidableEq

/-- `var ErrUnexpectedResponseStatus = errors.New("expected response status to be in the 200-299 range")` -/
def ErrUnexpectedResponseStatus : GoError :=
  .base "expected response status to be in the 200-299 range"

/-- The root cause of an error, as recovered by `errors.Cause` / `errors.Is`
walking through `WithStack` and `Wrapf` wrappers. -/
def rootCause : GoError → GoError
  | .withStack e => rootCause e
  | .wrapf _ e => rootCause e
  | e => e

/-- Go maps from string to string slice (`http.Header`, `url.Values`),
as association lists with unique keys in insertion order. -/
abbrev StrListMap := List (String × List String)

/-- `m[key] = append(m[key], value)`: append `v` to the entry of `k`,
inserting a fresh entry at the end when `k` is absent. -/
def mapAppend (m : StrListMap) (k v : String) : StrListMap :=
  match m with
  | [] => [(k, [v])]
  | (k', vs) :: rest =>
    if k' = k then (k', vs ++ [v]) :: rest else (k', vs) :: mapAppend rest k v

/-- `m[k]`: the value list stored under exactly the key `k` (Go map indexing,
`nil` slice for an absent key). -/
def hdrValues (m : StrListMap) (k : String) : List String :=
  match m with
  | [] => []
  | (k', vs) :: rest => if k' = k then vs else hdrValues rest k

/-- Valid characters of a MIME header key (`net/textproto.validHeaderFieldByte`). -/
def validHeaderFieldChar (c : Char) : Bool :=
  c.isAlphanum || c == '!' || c == '#' || c == '$' || c == '%' || c == '&' ||
  c == '\x27' || c == '*' || c == '+' || c == '-' || c == '.' || c == '^' ||
  c == '_' || c == '\x60' || c == '|' || c == '~'

/-- The case-normalisation loop of `textproto.CanonicalMIMEHeaderKey`:
uppercase the first letter and every letter after a hyphen, lowercase the rest. -/
def canonicalChars : Bool → List Char → List Char
  | _, [] => []
  | upper, c :: cs =>
    let c' := if upper then c.toUpper else c.toLower
    c' :: canonicalChars (c' == '-') cs

/-- `textproto.CanonicalMIMEHeaderKey`: keys with an invalid character are
returned unchanged, otherwise the case-normalised form. -/
def canonicalMIMEHeaderKey (s : String) : String :=
  if s.data.all validHeaderFieldChar then ⟨canonicalChars true s.data⟩ else s

/-- `http.Header.Add`: canonicalise the key, then append the value. -/
def headerAdd (m : StrListMap) (k v : String) : StrListMap :=
  mapAppend m (canonicalMIMEHeaderKey k) v

/-- `http.Header.Get`: canonicalise the key and return the first value,
or the empty string when the key is absent. -/
def headerGet (m : StrListMap) (k : String) : String :=
  (hdrValues m (canonicalMIMEHeaderKey k)).headD ""

/-! ## The JSON collaborator

The repository delegates JSON work to `encoding/json`.  We model the
JSON-serialisable Go values as a tree of nulls, booleans, integers, strings,
arrays and objects, `json.Marshal` as an executable encoder producing the
same text `encoding/json` produces on such values (compact output, HTML
escaping on), and `json.Unmarshal` as an executable decoder. -/

mutual
inductive JVal where
  | jnull
  | jbool (b : Bool)
  | jnum (n : Int)
  | jstr (s : List Char)
  | jarr (xs : JArr)
  | jobj (fs : JObj)
inductive JArr where
  | nil
  | cons (v : JVal) (rest : JArr)
inductive JObj where
  | nil
  | cons (k : List Char) (v : JVal) (rest : JObj)
end

/-- Decimal digit character for `d < 10`. -/
def digChar : Nat → Char
  | 0 => '0' | 1 => '1' | 2 => '2' | 3 => '3' | 4 => '4'
  | 5 => '5' | 6 => '6' | 7 => '7' | 8 => '8' | _ => '9'

/-- Lowercase hexadecimal digit character for `d < 16`
(`encoding/json` emits lowercase hex in `\u` escapes). -/
def hexCharL : Nat → Char
  | 0 => '0' | 1 => '1' | 2 => '2' | 3 => '3' | 4 => '4'
  | 5 => '5' | 6 => '6' | 7 => '7' | 8 => '8' | 9 => '9'
  | 10 => 'a' | 11 => 'b' | 12 => 'c' | 13 => 'd' | 14 => 'e' | _ => 'f'

/-- Decimal digits of a natural number, most significant first. -/
def natChars (n : Nat) : List Char :=
  if h : n < 10 then [digChar n]
  else natChars (n / 10) ++ [digChar (n % 10)]
decreasing_by exact Nat.div_lt_self (by omega) (by omega)

/-- Decimal rendering of an integer, as `encoding/json` renders Go integers. -/
def renderInt (n : Int) : List Char :=
  if n < 0 then '-' :: natChars n.natAbs else natChars n.toNat

/-- How `encoding/json` escapes one character inside a string literal:
quote, backslash, newline, carriage return and tab get two-character escapes;
other control characters and (with the default HTML escaping) angle brackets
and ampersand get `\u00XX`; everything else is emitted as itself. -/
def escapeChar (c : Char) : List Char :=
  if c = '"' then ['\\', '"']
  else if c = '\\' then ['\\', '\\']
  else if c = '\n' then ['\\', 'n']
  else if c = '\r' then ['\\', 'r']
  else if c = '\t' then ['\\', 't']
  else if c.toNat < 32 || c = '<' || c = '>' || c = '&' then
    ['\\', 'u', '0', '0', hexCharL (c.toNat / 16), hexCharL (c.toNat % 16)]
  else [c]

/-- A JSON string literal: quoted, with every character escaped as needed. -/
def renderString (s : List Char) : List Char :=
  '"' :: ((s.map escapeChar).flatten ++ ['"'])

mutual
/-- Compact JSON text of a value, as `json.Marshal` produces it. -/
def renderVal : JVal → List Char
  | .jnull => "null".data
  | .jbool true => "true".data
  | .jbool false => "false".data
  | .jnum n => renderInt n
  | .jstr s => renderString s
  | .jarr xs => '[' :: (renderArr xs ++ [']'])
  | .jobj fs => '\x7b' :: (renderObj fs ++ ['\x7d'])
/-- Array elements, comma separated. -/
def renderArr : JArr → List Char
  | .nil => []
  | .cons v .nil => renderVal v
  | .cons v (.cons v' rest) => renderVal v ++ ',' :: renderArr (.cons v' rest)
/-- Object fields, `"key":value`, comma separated. -/
def renderObj : JObj → List Char
  | .nil => []
  | .cons k v .nil => renderString k ++ ':' :: renderVal v
  | .cons k v (.cons k' v' rest) =>
    renderString k ++ ':' :: renderVal v ++ ',' :: renderObj (.cons k' v' rest)
end

/-- JSON whitespace. -/
def isWS (c : Char) : Bool := c == ' ' || c == '\t' || c == '\n' || c == '\r'

/-- Skip leading JSON whitespace. -/
def skipWS (s : List Char) : List Char := s.dropWhile isWS

/-- Numeric value of a decimal digit character. -/
def digVal (c : Char) : Nat := c.toNat - 48

/-- Greedily consume decimal digits, folding them onto an accumulator. -/
def parseDigits (acc : Nat) : List Char → Nat × List Char
  | [] => (acc, [])
  | c :: cs => if c.isDigit then parseDigits (acc * 10 + digVal c) cs else (acc, c :: cs)

/-- Parse an optionally negated decimal integer. -/
def parseNumber (l : List Char) : Option (Int × List Char) :=
  match l with
  | [] => none
  | c :: cs =>
    if c = '-' then
      match cs with
      | [] => none
      | d :: _ =>
        if d.isDigit then
          let p := parseDigits 0 cs
          some (-(p.1 : Int), p.2)
        else none
    else if c.isDigit then
      let p := parseDigits 0 (c :: cs)
      some ((p.1 : Int), p.2)
    else none

/-- Numeric value of a hexadecimal digit character, if it is one. -/
def hexVal (c : Char) : Option Nat :=
  if c.isDigit then some (digVal c)
  else if 'a' ≤ c ∧ c ≤ 'f' then some (c.toNat - 97 + 10)
  else if 'A' ≤ c ∧ c ≤ 'F' then some (c.toNat - 65 + 10)
  else none

/-- Prepend a decoded character to a string-parse result. -/
def consMap (c : Char) (o : Option (List Char × List Char)) :
    Option (List Char × List Char) :=
  o.map (fun p => (c :: p.1, p.2))

/-- Parse the body of a JSON string literal (the opening quote already
consumed) up to and including the closing quote, decoding escapes. -/
def parseStringBody : List Char → Option (List Char × List Char)
  | [] => none
  | c :: cs =>
    if c = '"' then some ([], cs)
    else if c = '\\' then
      match cs with
      | [] => none
      | e :: cs' =>
        if e = '"' then consMap '"' (parseStringBody cs')
        else if e = '\\' then consMap '\\' (parseStringBody cs')
        else if e = '/' then consMap '/' (parseStringBody cs')
        else if e = 'n' then consMap '\n' (parseStringBody cs')
        else if e = 'r' then consMap '\r' (parseStringBody cs')
        else if e = 't' then consMap '\t' (parseStringBody cs')
        else if e = 'b' then consMap '\x08' (parseStringBody cs')
        else if e = 'f' then consMap '\x0c' (parseStringBody cs')
        else if e = 'u' then
          match cs' with
          | h1 :: h2 :: h3 :: h4 :: cs'' =>
            match hexVal h1, hexVal h2, hexVal h3, hexVal h4 with
            | some a, some b, some c2, some d =>
              consMap (Char.ofNat (((a * 16 + b) * 16 + c2) * 16 + d)) (parseStringBody cs'')
            | _, _, _, _ => none
          | _ => none
        else none
    else consMap c (parseStringBody cs)
termination_by l => l.length
decreasing_by all_goals simp_all <;> omega

mutual
/-- Fuel-indexed JSON value parser. -/
def parseVal : Nat → List Char → Option (JVal × List Char)
  | 0, _ => none
  | n + 1, s =>
    match skipWS s with
    | [] => none
    | c :: cs =>
      if c = '"' then (parseStringBody cs).map (fun p => (JVal.jstr p.1, p.2))
      else if c = '\x7b' then
        match skipWS cs with
        | [] => none
        | d :: r =>
          if d = '\x7d' then some (.jobj .nil, r)
          else (parseFields n (d :: r)).map (fun p => (JVal.jobj p.1, p.2))
      else if c = '[' then
        match skipWS cs with
        | [] => none
        | d :: r =>
          if d = ']' then some (.jarr .nil, r)
          else (parseElems n (d :: r)).map (fun p => (JVal.jarr p.1, p.2))
      else if c = 't' then
        match cs with
        | 'r' :: 'u' :: 'e' :: r => some (.jbool true, r)
        | _ => none
      else if c = 'f' then
        match cs with
        | 'a' :: 'l' :: 's' :: 'e' :: r => some (.jbool false, r)
        | _ => none
      else if c = 'n' then
        match cs with
        | 'u' :: 'l' :: 'l' :: r => some (.jnull, r)
        | _ => none
      else (parseNumber (c :: cs)).map (fun p => (JVal.jnum p.1, p.2))
/-- Parse the elements of a non-empty array, up to the closing bracket. -/
def parseElems : Nat → List Char → Option (JArr × List Char)
  | 0, _ => none
  | n + 1, s =>
    match parseVal n s with
    | none => none
    | some (v, r) =>
      match skipWS r with
      | [] => none
      | d :: r' =>
        if d = ',' then (parseElems n r').map (fun p => (JArr.cons v p.1, p.2))
        else if d = ']' then some (.cons v .nil, r')
        else none
/-- Parse the fields of a non-empty object, up to the closing brace. -/
def parseFields : Nat → List Char → Option (JObj × List Char)
  | 0, _ => none
  | n + 1, s =>
    match skipWS s with
    | [] => none
    | c :: cs =>
      if c = '"' then
        match parseStringBody cs with
        | none => none
        | some (k, r) =>
          match skipWS r with
          | [] => none
          | d :: r' =>
            if d = ':' then
              match parseVal n r' with
              | none => none
              | some (v, r2) =>
                match skipWS r2 with
                | [] => none
                | e2 :: r3 =>
                  if e2 = ',' then (parseFields n r3).map (fun p => (JObj.cons k v p.1, p.2))
                  else if e2 = '\x7d' then some (.cons k v .nil, r3)
                  else none
            else none
      else none
end

/-- `json.Unmarshal` into an untyped target: parse one value, allow trailing
whitespace only. -/
def jsonUnmarshal (s : List Char) : Except GoError JVal :=
  match parseVal (s.length + 1) s with
  | none => .error (.base "invalid character in json input")
  | some (v, rest) =>
    if skipWS rest = [] then .ok v else .error (.base "invalid character after top-level value")

/-- An arbitrary Go value handed to `json.Marshal`: either a value the
encoder supports (modelled by its JSON tree) or an unsupported one
(a channel, function, complex number, ...), on which `Marshal` errors. -/
inductive GoValue where
  | jsonLike (v : JVal)
  | unsupported (typeName : String)

/-- `json.Marshal`. -/
def jsonMarshal : GoValue → Except GoError (List Char)
  | .jsonLike v => .ok (renderVal v)
  | .unsupported t => .error (.marshalError ("json: unsupported type: " ++ t))

/-- True when the list does not begin with a decimal digit (so a greedy
number parse to its left cannot run into it). -/
def noDigitHead : List Char → Bool
  | [] => true
  | c :: _ => !c.isDigit

mutual
/-- Parser fuel sufficient for the rendering of a value. -/
def costV : JVal → Nat
  | .jarr (.cons v xs) => 1 + costA (JArr.cons v xs)
  | .jobj (.cons k v fs) => 1 + costO (JObj.cons k v fs)
  | _ => 1
/-- Parser fuel sufficient for the element list of an array. -/
def costA : JArr → Nat
  | .nil => 0
  | .cons v xs => 1 + costV v + costA xs
/-- Parser fuel sufficient for the field list of an object. -/
def costO : JObj → Nat
  | .nil => 0
  | .cons _ v fs => 1 + costV v + costO fs
end

/-! ## Query encoding (`net/url`) -/

/-- Uppercase hexadecimal digit character for `d < 16` (percent escapes). -/
def hexCharU : Nat → Char
  | 0 => '0' | 1 => '1' | 2 => '2' | 3 => '3' | 4 => '4'
  | 5 => '5' | 6 => '6' | 7 => '7' | 8 => '8' | 9 => '9'
  | 10 => 'A' | 11 => 'B' | 12 => 'C' | 13 => 'D' | 14 => 'E' | _ => 'F'

/-- Characters `url.QueryEscape` leaves unescaped. -/
def queryUnreserved (c : Char) : Bool :=
  c.isAlphanum || c == '-' || c == '_' || c == '.' || c == '~'

/-- `url.QueryEscape` on one character: unreserved characters pass through,
space becomes `+`, everything else is percent-escaped. -/
def queryEscapeChar (c : Char) : List Char :=
  if queryUnreserved c then [c]
  else if c = ' ' then ['+']
  else ['%', hexCharU (c.toNat / 16 % 16), hexCharU (c.toNat % 16)]

/-- `url.QueryEscape`. -/
def queryEscape (s : String) : String := ⟨(s.data.map queryEscapeChar).flatten⟩

/-- Insert a string into a sorted list (ascending). -/
def insertSorted (s : String) : List String → List String
  | [] => [s]
  | x :: xs => if s ≤ x then s :: x :: xs else x :: insertSorted s xs

/-- `sort.Strings`. -/
def sortStrings (l : List String) : List String := l.foldr insertSorted []

/-- `url.Values.Encode` on a non-nil map: keys sorted, each value as
`escape(k)=escape(v)`, joined by `&`. -/
def encodeQueryList (q : StrListMap) : String :=
  let keys := sortStrings (q.map Prod.fst)
  String.intercalate "&"
    ((keys.map (fun k => (hdrValues q k).map (fun v => queryEscape k ++ "=" ++ queryEscape v))).flatten)

/-- `url.Values.Encode`, where `none` models a nil `url.Values` map
(on which `Encode` returns the empty string). -/
def encodeQuery : Option StrListMap → String
  | none => ""
  | some q => encodeQueryList q

/-! ## The builder (`src/src/reqwest/reqwest.go`) -/

/-- What `ctx.Value(CorrelationIDContextKey)` yields: a string, or a value of
some other dynamic type (on which the `.(string)` assertion fails). -/
inductive CtxValue where
  | str (s : String)
  | nonString
deriving Repr, DecidableEq

/-- The execution context, restricted to the one key the builder reads:
`CorrelationIDContextKey`. -/
structure Ctx where
  corrValue : Option CtxValue
deriving Repr, DecidableEq

/-- `context.Background()`. -/
def backgroundCtx : Ctx := ⟨none⟩

/-- `var CorrelationIDHeaderKey = "x-correlation-id"`. -/
def CorrelationIDHeaderKey : String := "x-correlation-id"

/-- A materialised `*http.Request`: method, URL split into the part before
the query and the raw query, headers, optional body bytes, bound context. -/
structure HttpRequest where
  method : String
  urlBase : String
  rawQuery : String
  header : StrListMap
  body : Option (List Char)
  ctx : Ctx
deriving Repr, DecidableEq

/-- `http.NewRequest`: parse the endpoint (fails on a control character in
the URL, as `url.Parse` does), split off any raw query, start with an empty
header map and the given body. -/
def newRequest (method endpoint : String) (body : Option (List Char)) :
    Except GoError HttpRequest :=
  if endpoint.data.any (fun c => c.toNat < 32) then
    .error (.newRequestError ("parse " ++ endpoint ++ ": net/url: invalid control character in URL"))
  else
    .ok
      { method := method
        urlBase := ⟨endpoint.data.takeWhile (fun c => c ≠ '?')⟩
        rawQuery := ⟨(endpoint.data.dropWhile (fun c => c ≠ '?')).drop 1⟩
        header := []
        body := body
        ctx := ⟨none⟩ }

/-- Outcome of a Go statement that can panic. -/
inductive GoOutcome (α : Type) where
  | panics
  | ok (a : α)
deriving Repr, DecidableEq

/-- The `RequestBuilder` accumulator.  `query` is `none` when the Go field
holds a nil `url.Values` map (the `PATCH`/`PUT` constructors never initialise
it).  The `client`, `request` and `response` fields of the Go struct are
omitted: all constructors store `http.DefaultClient`, and the latter two are
never assigned on this type in the canonical file. -/
structure RequestBuilder where
  ctx : Ctx
  method : String
  endpoint : String
  query : Option StrListMap
  headers : StrListMap
  body : Option (List Char)
  err : Option GoError

/-- `RequestBuilder.Header`: `builder.headers[key] = append(builder.headers[key], value)`.
Note: no error guard in the source. -/
def RequestBuilder.Header (b : RequestBuilder) (key value : String) : RequestBuilder :=
  { b with headers := mapAppend b.headers key value }

/-- The dynamic argument of `RequestBuilder.Query`: the type switch accepts
`string` and `[]string` and silently ignores every other type. -/
inductive QueryArg where
  | str (s : String)
  | strs (l : List String)
  | otherType

/-- `RequestBuilder.Query`: add the value(s) via `url.Values.Add`, which
assigns into the map and therefore panics when the map is nil.  A `[]string`
argument panics only if the loop body runs at least once. -/
def RequestBuilder.Query (b : RequestBuilder) (key : String) (value : QueryArg) :
    GoOutcome RequestBuilder :=
  match value with
  | .str s =>
    match b.query with
    | none => .panics
    | some q => .ok { b with query := some (mapAppend q key s) }
  | .strs l =>
    match l with
    | [] => .ok b
    | _ :: _ =>
      match b.query with
      | none => .panics
      | some q =>
        .ok { b with query := some (l.foldl (fun acc v => mapAppend acc key v) q) }
  | .otherType => .ok b

/-- `ImpureRequestBuilder.Body`: unconditionally replace the body source. -/
def RequestBuilder.Body (b : RequestBuilder) (reader : List Char) : RequestBuilder :=
  { b with body := some reader }

/-- `ImpureRequestBuilder.JSON`: no-op on a previous error; marshal the value;
record a marshal failure (wrapped with a stack) or set the body. -/
def RequestBuilder.JSON (b : RequestBuilder) (body : GoValue) : RequestBuilder :=
  match b.err with
  | some _ => b
  | none =>
    match jsonMarshal body with
    | .error e => { b with err := some (.withStack e) }
    | .ok out => b.Body out

/-- What the transport returns on a completed round trip: a status code and
a readable body stream. -/
structure HttpResp where
  statusCode : Nat
  bodyStream : List Char
deriving Repr, DecidableEq

/-- The `Response` struct: the embedded `*http.Response` (nil on transport
failure) plus the drained body bytes. -/
structure ResponseVal where
  inner : Option HttpResp
  drained : List Char
deriving Repr, DecidableEq

/-- The `ResponseBuilder` produced by `Build`. -/
structure ResponseBuilder where
  request : Option HttpRequest
  response : ResponseVal
  err : Option GoError

/-- `RequestBuilder.Build`: short-circuit on a stored error; otherwise create
the transport request, bind the context, install the accumulated headers when
any were set, inject the correlation id from the context via `Header.Add`,
and encode the accumulated query into the URL. -/
def RequestBuilder.Build (b : RequestBuilder) : ResponseBuilder :=
  match b.err with
  | some e => { request := none, response := ⟨none, []⟩, err := some (.withStack e) }
  | none =>
    match newRequest b.method b.endpoint b.body with
    | .error e => { request := none, response := ⟨none, []⟩, err := some (.withStack e) }
    | .ok req0 =>
      let req1 := { req0 with ctx := b.ctx }
      let req2 := if b.headers.length > 0 then { req1 with header := b.headers } else req1
      let req3 :=
        match b.ctx.corrValue with
        | some (.str cid) => { req2 with header := headerAdd req2.header CorrelationIDHeaderKey cid }
        | _ => req2
      let req4 := { req3 with rawQuery := encodeQuery b.query }
      { request := some req4, response := ⟨none, []⟩, err := none }

/-- `RequestBuilder.Request`: build, and return the request together with the
(re-wrapped) stored error. -/
def RequestBuilder.Request (b : RequestBuilder) : Option HttpRequest × Option GoError :=
  let rb := b.Build
  match rb.err with
  | some e => (rb.request, some (.withStack e))
  | none => (rb.request, none)

/-- A registered `BeforeEach` interceptor: mutates the request in place. -/
abbrev Interceptor := Option HttpRequest → Option HttpRequest

/-- The transport oracle standing for `http.Client.Do`. -/
abbrev Transport := Option HttpRequest → Except GoError HttpResp

/-- An observable effect: one round trip over the transport, carrying the
request that was handed to `client.Do`. -/
inductive Effect where
  | netCall (req : Option HttpRequest)

/-- `ResponseBuilder.makeRequest`: no-op on a stored error; otherwise run the
registered interceptors in order, perform the round trip, store the response,
record a transport failure, or drain the body, close the stream, and classify
a status outside 200-299 as `ErrUnexpectedResponseStatus`.  The returned list
is the trace of transport calls the execution performs. -/
def ResponseBuilder.makeRequest (rb : ResponseBuilder) (ics : List Interceptor)
    (doFn : Transport) : ResponseBuilder × List Effect :=
  match rb.err with
  | some _ => (rb, [])
  | none =>
    let req := ics.foldl (fun r i => i r) rb.request
    match doFn req with
    | .error e =>
      ({ rb with request := req, response := ⟨none, []⟩, err := some (.withStack e) },
        [.netCall req])
    | .ok resp =>
      let rb' := { rb with request := req, response := ⟨some resp, resp.bodyStream⟩ }
      if resp.statusCode < 200 ∨ resp.statusCode > 299 then
        ({ rb' with
            err := some (.wrapf ("got status " ++ toString resp.statusCode)
              ErrUnexpectedResponseStatus) }, [.netCall req])
      else (rb', [.netCall req])

/-- `Response.JSON`: decode the drained body into the caller's target. -/
def ResponseVal.JSONDecode (r : ResponseVal) : Except GoError JVal :=
  jsonUnmarshal r.drained

/-- `Response.Bytes`. -/
def ResponseVal.Bytes (r : ResponseVal) : List Char := r.drained

/-- `Response.Text`. -/
def ResponseVal.Text (r : ResponseVal) : String := ⟨r.drained⟩

/-- `RequestBuilder.Build` in effect-trace form.  The body of `Build` contains
no transport invocation, so its trace is empty by translation. -/
def RequestBuilder.BuildTraced (b : RequestBuilder) : ResponseBuilder × List Effect :=
  (b.Build, [])

/-- `RequestBuilder.Request` in effect-trace form (calls only `Build`). -/
def RequestBuilder.RequestTraced (b : RequestBuilder) :
    (Option HttpRequest × Option GoError) × List Effect :=
  (b.Request, [])

/-- `RequestBuilder.Send`: build, perform the round trip, and return the
response together with the (re-wrapped) error, accumulating the effect traces
of both stages. -/
def RequestBuilder.Send (b : RequestBuilder) (ics : List Interceptor) (doFn : Transport) :
    (ResponseVal × Option GoError) × List Effect :=
  let (rb, es1) := b.BuildTraced
  let (rb', es2) := rb.makeRequest ics doFn
  match rb'.err with
  | some e => ((rb'.response, some (.withStack e)), es1 ++ es2)
  | none => ((rb'.response, none), es1 ++ es2)

/-- `POST`: query map initialised. -/
def POST (ctx : Ctx) (endpoint : String) : RequestBuilder :=
  { ctx := ctx, method := "POST", endpoint := endpoint, query := some [],
    headers := [], body := none, err := none }

/-- `PATCH`: the `query` field is left at its zero value, a nil map. -/
def PATCH (ctx : Ctx) (endpoint : String) : RequestBuilder :=
  { ctx := ctx, method := "PATCH", endpoint := endpoint, query := none,
    headers := [], body := none, err := none }

/-- `PUT`: the `query` field is left at its zero value, a nil map. -/
def PUT (ctx : Ctx) (endpoint : String) : RequestBuilder :=
  { ctx := ctx, method := "PUT", endpoint := endpoint, query := none,
    headers := [], body := none, err := none }

/-- `GET`: query map initialised. -/
def GET (ctx : Ctx) (endpoint : String) : RequestBuilder :=
  { ctx := ctx, method := "GET", endpoint := endpoint, query := some [],
    headers := [], body := none, err := none }

/-- One chained configuration call on a builder. -/
inductive BuilderOp where
  | header (k v : String)
  | query (k : String) (a : QueryArg)
  | body (reader : List Char)
  | json (v : GoValue)

/-- Run one chained call. -/
def applyOp (b : RequestBuilder) : BuilderOp → GoOutcome RequestBuilder
  | .header k v => .ok (b.Header k v)
  | .query k a => b.Query k a
  | .body r => .ok (b.Body r)
  | .json v => .ok (b.JSON v)

/-- Run a chain of configuration calls, stopping at a panic. -/
def applyOps (b : RequestBuilder) : List BuilderOp → GoOutcome RequestBuilder
  | [] => .ok b
  | op :: ops =>
    match applyOp b op with
    | .panics => .panics
    | .ok b' => applyOps b' ops

/-! ## The earlier builder variant (`src/unnamed/part_000`, first revision)

Its constructors pre-create the transport request, and its `JSON` method adds
the `content-type: application/json` header itself before marshalling. -/

/-- The variant's `RequestBuilder`, restricted to the fields `JSON` touches. -/
structure VariantRequestBuilder where
  headers : StrListMap
  request : Option HttpRequest
  err : Option GoError

/-- The variant's `Header`: raw map append, no canonicalisation. -/
def VariantRequestBuilder.Header (b : VariantRequestBuilder) (key value : String) :
    VariantRequestBuilder :=
  { b with headers := mapAppend b.headers key value }

/-- The variant's `ImpureRequestBuilder.JSON`: no-op on a previous error, add
the `content-type` header, marshal, record a failure or install the body on
the pre-created request (dereferencing it, hence a panic when it is nil). -/
def VariantRequestBuilder.JSON (b : VariantRequestBuilder) (body : GoValue) :
    GoOutcome VariantRequestBuilder :=
  match b.err with
  | some _ => .ok b
  | none =>
    let b1 := b.Header "content-type" "application/json"
    match b1.err with
    | some _ => .ok b1
    | none =>
      match jsonMarshal body with
      | .error e => .ok { b1 with err := some e }
      | .ok out =>
        match b1.request with
        | none => .panics
        | some r => .ok { b1 with request := some { r with body := some out } }

/-- The variant's `POST`: `http.NewRequest` at construction time, then
`req.WithContext(ctx)` (which dereferences a nil request when construction
failed). -/
def VariantPOST (ctx : Ctx) (endpoint : String) : GoOutcome VariantRequestBuilder :=
  match newRequest "POST" endpoint none with
  | .error _ => .panics
  | .ok req => .ok { headers := [], request := some { req with ctx := ctx }, err := none }

/-! ## The correlation logger (`src/unnamed/part_003`) -/

/-- The event kinds of the logger's `Events` registry. -/
inductive LogEventKind where
  | traceStart
  | traceEnd
  | info
  | logError
  | debug
deriving Repr, DecidableEq

/-- The `name` carried by each `Event` value. -/
def eventName : LogEventKind → String
  | .traceStart => "trace_start"
  | .traceEnd => "trace_end"
  | .info => "info"
  | .logError => "error"
  | .debug => "debug"

/-- One structured line handed to the zerolog sink. -/
structure LogLine where
  level : String
  correlationID : String
  message : String
deriving Repr, DecidableEq

/-- The logger instance: its correlation tag (the `prefix` field, set by the
`Prefix` method) and the registered `BeforeEach` handlers (by identifier). -/
structure Logger where
  tag : String
  beforeEach : List Nat
deriving Repr, DecidableEq

/-- `callBeforeEachHandlers`: every registered handler, in registration
order, receives the event and the message. -/
def Logger.notify (lg : Logger) (ev : LogEventKind) (message : String) :
    List (Nat × LogEventKind × String) :=
  lg.beforeEach.map (fun h => (h, ev, message))

/-- The text `Msgf("[END - %d(%dms)] %s", time.Now().UnixMilli(), time.Since(start).Milliseconds(), message)`
produces.  This same format string is used both at `Trace` call time and in
the returned closure. -/
def traceLineText (nowMs elapsedMs : Nat) (message : String) : String :=
  "[END - " ++ toString nowMs ++ "(" ++ toString elapsedMs ++ "ms)] " ++ message

/-- `logger.Trace`, with wall-clock time made explicit: invoked at instant
`startMs`, it notifies the handlers with `trace_start` and emits one info
line immediately (elapsed time zero, since `start` was just captured), and
returns a closure that, invoked at instant `endMs`, notifies the handlers
with `trace_end` and emits an info line carrying `endMs - startMs`. -/
def Logger.Trace (lg : Logger) (message : String) (startMs : Nat) :
    (List (Nat × LogEventKind × String) × LogLine) ×
      (Nat → List (Nat × LogEventKind × String) × LogLine) :=
  ((lg.notify .traceStart message,
    ⟨"info", lg.tag, traceLineText startMs 0 message⟩),
   fun endMs =>
    (lg.notify .traceEnd message,
      ⟨"info", lg.tag, traceLineText endMs (endMs - startMs) message⟩))

/-- Endpoints `http.NewRequest` accepts in this model: no control character. -/
def okEndpoint (ep : String) : Bool := !(ep.data.any (fun c => c.toNat < 32))

/-! # Theorems -/

/-! ## Map and header lemmas -/

theorem hdrValues_mapAppend_self (m : StrListMap) (k v : String) :
    hdrValues (mapAppend m k v) k = hdrValues m k ++ [v] := by
  induction m with
  | nil => simp [mapAppend, hdrValues]
  | cons p rest ih =>
    obtain ⟨k', vs⟩ := p
    by_cases h : k' = k <;> simp [mapAppend, hdrValues, h, ih]

theorem hdrValues_mapAppend_ne (m : StrListMap) (k' k v : String) (h : k' ≠ k) :
    hdrValues (mapAppend m k' v) k = hdrValues m k := by
  induction m with
  | nil => simp [mapAppend, hdrValues, h]
  | cons p rest ih =>
    obtain ⟨k0, vs⟩ := p
    by_cases h0 : k0 = k'
    · subst h0
      simp [mapAppend, hdrValues, h]
    · by_cases h1 : k0 = k
      · subst h1
        simp [mapAppend, hdrValues, h0, Ne.symm h]
      · simp [mapAppend, hdrValues, h0, h1, ih]

theorem hdrValues_foldAppend (vs : List String) (m : StrListMap) (k : String) :
    hdrValues (vs.foldl (fun acc v => mapAppend acc k v) m) k = hdrValues m k ++ vs := by
  induction vs generalizing m with
  | nil => simp
  | cons v vs ih => simp [List.foldl_cons, ih, hdrValues_mapAppend_self]

theorem newRequest_eq (m ep : String) (body : Option (List Char)) (h : okEndpoint ep = true) :
    newRequest m ep body =
      .ok ⟨m, ⟨ep.data.takeWhile (fun c => c ≠ '?')⟩,
        ⟨(ep.data.dropWhile (fun c => c ≠ '?')).drop 1⟩, [], body, ⟨none⟩⟩ := by
  unfold okEndpoint at h
  simp only [Bool.not_eq_true'] at h
  simp [newRequest, h]

/-- The header-installation conditional of `Build` collapses: when no header
was ever set the fresh request's empty map coincides with the accumulator. -/
theorem installHeaders_eq (r : HttpRequest) (hs : StrListMap) (hr : r.header = []) :
    (if hs.length > 0 then { r with header := hs } else r) = { r with header := hs } := by
  cases hs with
  | nil => simp [← hr]
  | cons p rest => simp

/-- `Build` on an error-free builder with a well-formed endpoint: the built
request carries the builder's method, context and body, the accumulated
headers (plus the context correlation id, added canonically), and the encoded
query. -/
theorem Build_ok (b : RequestBuilder) (hb : b.err = none) (hep : okEndpoint b.endpoint = true) :
    b.Build =
      { request := some
          { method := b.method
            urlBase := ⟨b.endpoint.data.takeWhile (fun c => c ≠ '?')⟩
            rawQuery := encodeQuery b.query
            header :=
              match b.ctx.corrValue with
              | some (.str cid) => headerAdd b.headers CorrelationIDHeaderKey cid
              | _ => b.headers
            body := b.body
            ctx := b.ctx }
        response := ⟨none, []⟩
        err := none } := by
  unfold RequestBuilder.Build
  rw [hb, newRequest_eq _ _ _ hep]
  cases hc : b.ctx.corrValue with
  | none => cases hhs : b.headers <;> simp [hc, hhs]
  | some cv =>
    cases cv with
    | str cid => cases hhs : b.headers <;> simp [hc, hhs]
    | nonString => cases hhs : b.headers <;> simp [hc, hhs]

/-- `Build` on a builder with a stored error: no request, the error re-wrapped. -/
theorem Build_err (b : RequestBuilder) (e : GoError) (hb : b.err = some e) :
    b.Build = { request := none, response := ⟨none, []⟩, err := some (.withStack e) } := by
  unfold RequestBuilder.Build
  rw [hb]

/-- A chain of configuration calls on an errored builder whose query map is
initialised completes without panic, never overwrites the error, and keeps
the query map initialised. -/
theorem applyOps_err_preserved (ops : List BuilderOp) : ∀ (b : RequestBuilder) (e : GoError),
    b.err = some e → b.query.isSome = true →
    ∃ b', applyOps b ops = .ok b' ∧ b'.err = some e ∧ b'.query.isSome = true := by
  induction ops with
  | nil => exact fun b e hb hq => ⟨b, rfl, hb, hq⟩
  | cons op ops ih =>
    intro b e hb hq
    cases op with
    | header k v =>
      obtain ⟨b', h1, h2, h3⟩ := ih (b.Header k v) e hb hq
      exact ⟨b', h1, h2, h3⟩
    | query k a =>
      cases a with
      | str s =>
        obtain ⟨q, hq'⟩ := Option.isSome_iff_exists.mp hq
        have hQ : b.Query k (.str s) = .ok { b with query := some (mapAppend q k s) } := by
          simp [RequestBuilder.Query, hq']
        obtain ⟨b', h1, h2, h3⟩ := ih { b with query := some (mapAppend q k s) } e hb (by simp)
        refine ⟨b', ?_, h2, h3⟩
        simp only [applyOps, applyOp, hQ]
        exact h1
      | strs l =>
        cases l with
        | nil =>
          obtain ⟨b', h1, h2, h3⟩ := ih b e hb hq
          refine ⟨b', ?_, h2, h3⟩
          simp only [applyOps, applyOp, RequestBuilder.Query]
          exact h1
        | cons v vs =>
          obtain ⟨q, hq'⟩ := Option.isSome_iff_exists.mp hq
          have hQ : b.Query k (.strs (v :: vs)) =
              .ok { b with query := some ((v :: vs).foldl (fun acc w => mapAppend acc k w) q) } := by
            simp [RequestBuilder.Query, hq']
          obtain ⟨b', h1, h2, h3⟩ :=
            ih { b with query := some ((v :: vs).foldl (fun acc w => mapAppend acc k w) q) } e hb
              (by simp)
          refine ⟨b', ?_, h2, h3⟩
          simp only [applyOps, applyOp, hQ]
          exact h1
      | otherType =>
        obtain ⟨b', h1, h2, h3⟩ := ih b e hb hq
        refine ⟨b', ?_, h2, h3⟩
        simp only [applyOps, applyOp, RequestBuilder.Query]
        exact h1
    | body r =>
      obtain ⟨b', h1, h2, h3⟩ := ih (b.Body r) e hb hq
      exact ⟨b', h1, h2, h3⟩
    | json v =>
      have hJ : b.JSON v = b := by simp [RequestBuilder.JSON, hb]
      obtain ⟨b', h1, h2, h3⟩ := ih b e hb hq
      refine ⟨b', ?_, h2, h3⟩
      simp only [applyOps, applyOp, hJ]
      exact h1

/-- C1 (as stated) is false: on a `PATCH` builder that has recorded an error
(here a JSON marshal failure), a subsequent chained `Query` call is not a
no-op returning the errored builder — it panics on the nil query map. -/
theorem claim_C1_counterexample :
    ((PATCH backgroundCtx "http://example.com").JSON (GoValue.unsupported "chan int")).err.isSome
      = true ∧
    ((PATCH backgroundCtx "http://example.com").JSON (GoValue.unsupported "chan int")).Query "k"
      (QueryArg.str "v") = GoOutcome.panics :=
  ⟨rfl, rfl⟩

/-- C1 (amended): on a builder with an initialised query map (any `GET`/`POST`
builder) carrying a recorded error, every chain of subsequent configuration
calls completes without panic, yields a builder exposing the same original
error, builds identically to the original, and the eventually-built output
exposes that error and no request, so no mutation is observable in it. -/
theorem claim_C1_amended (b : RequestBuilder) (e : GoError) (ops : List BuilderOp)
    (hb : b.err = some e) (hq : b.query.isSome = true) :
    ∃ b', applyOps b ops = .ok b' ∧ b'.err = some e ∧ b'.Build = b.Build ∧
      b.Build.request = none ∧ b.Build.err = some (.withStack e) := by
  obtain ⟨b', h1, h2, _⟩ := applyOps_err_preserved ops b e hb hq
  refine ⟨b', h1, h2, ?_, ?_, ?_⟩
  · rw [Build_err b e hb, Build_err b' e h2]
  · rw [Build_err b e hb]
  · rw [Build_err b e hb]

/-- C1 witness: a `POST` builder errored by a marshal failure, followed by a
header, query, body and JSON call. -/
theorem claim_C1_amended_witness :
    ∃ b', applyOps ((POST backgroundCtx "http://example.com").JSON (GoValue.unsupported "chan"))
        [BuilderOp.header "k" "v", BuilderOp.query "q" (QueryArg.str "x"),
          BuilderOp.body ['d'], BuilderOp.json (GoValue.jsonLike JVal.jnull)] = .ok b' ∧
      b'.err = some (.withStack (.marshalError "json: unsupported type: chan")) ∧
      b'.Build = ((POST backgroundCtx "http://example.com").JSON (GoValue.unsupported "chan")).Build ∧
      ((POST backgroundCtx "http://example.com").JSON (GoValue.unsupported "chan")).Build.request
        = none ∧
      ((POST backgroundCtx "http://example.com").JSON (GoValue.unsupported "chan")).Build.err
        = some (.withStack (.withStack (.marshalError "json: unsupported type: chan"))) :=
  claim_C1_amended _ (.withStack (.marshalError "json: unsupported type: chan")) _ rfl rfl

/-- C6: building performs no transport call — the traces of `Build` and
`Request` are empty, and every transport call of `Send` happens inside its
`makeRequest` stage. -/
theorem claim_C6 (b : RequestBuilder) :
    b.BuildTraced.2 = [] ∧ b.RequestTraced.2 = [] ∧
    ∀ (ics : List Interceptor) (doFn : Transport),
      (b.Send ics doFn).2 = (b.Build.makeRequest ics doFn).2 := by
  refine ⟨rfl, rfl, fun ics doFn => ?_⟩
  cases h : b.Build.makeRequest ics doFn with
  | mk rb' es2 =>
    cases he : rb'.err <;>
      simp [RequestBuilder.Send, RequestBuilder.BuildTraced, h, he]

/-- C8 (as stated) is false on the canonical builder: after `JSON` sets the
body, the built request carries no `content-type` header at all. -/
theorem claim_C8_counterexample :
    ((POST backgroundCtx "http://example.com").JSON
        (GoValue.jsonLike (JVal.jstr ['h', 'i']))).err = none ∧
    ∃ req,
      ((POST backgroundCtx "http://example.com").JSON
          (GoValue.jsonLike (JVal.jstr ['h', 'i']))).Build.request = some req ∧
        hdrValues req.header "content-type" = [] ∧
        headerGet req.header "content-type" = "" :=
  ⟨rfl, _, rfl, rfl, rfl⟩

/-- C8 (amended): only the earlier variant builder sets
`content-type: application/json` automatically — its `JSON` method appends it
to the header map (raw, uncanonicalised) before marshalling and installs the
marshalled bytes as the pre-created request's body. -/
theorem claim_C8_amended (b : VariantRequestBuilder) (v : JVal) (r : HttpRequest)
    (hb : b.err = none) (hr : b.request = some r) :
    b.JSON (GoValue.jsonLike v) =
      .ok { headers := mapAppend b.headers "content-type" "application/json",
            request := some { r with body := some (renderVal v) },
            err := none } ∧
    hdrValues (mapAppend b.headers "content-type" "application/json") "content-type" =
      hdrValues b.headers "content-type" ++ ["application/json"] := by
  constructor
  · simp [VariantRequestBuilder.JSON, VariantRequestBuilder.Header, hb, hr, jsonMarshal]
  · exact hdrValues_mapAppend_self _ _ _

/-- C8 witness: the variant `POST` builder at a concrete endpoint. -/
theorem claim_C8_amended_witness :
    VariantRequestBuilder.JSON
        ⟨[], some ⟨"POST", "http://example.com", "", [], none, backgroundCtx⟩, none⟩
        (GoValue.jsonLike (JVal.jstr ['h', 'i'])) =
      .ok ⟨mapAppend [] "content-type" "application/json",
        some ⟨"POST", "http://example.com", "", [],
          some (renderVal (JVal.jstr ['h', 'i'])), backgroundCtx⟩, none⟩ ∧
    hdrValues (mapAppend [] "content-type" "application/json") "content-type" =
      hdrValues [] "content-type" ++ ["application/json"] :=
  claim_C8_amended ⟨[], some ⟨"POST", "http://example.com", "", [], none, backgroundCtx⟩, none⟩
    (JVal.jstr ['h', 'i']) ⟨"POST", "http://example.com", "", [], none, backgroundCtx⟩ rfl rfl

/-- C9: what `Trace` actually emits.  The handlers are notified with
`trace_start`, but the log line emitted at call time is formatted with the
end-marker format string (it begins with `[END - `); the returned closure
emits an end-marker line carrying the elapsed time since the `Trace` call. -/
theorem claim_C9_divergence (lg : Logger) (message : String) (startMs endMs : Nat) :
    (lg.Trace message startMs).1.1 = lg.notify .traceStart message ∧
    (lg.Trace message startMs).1.2 = ⟨"info", lg.tag, traceLineText startMs 0 message⟩ ∧
    (∃ s, (lg.Trace message startMs).1.2.message = "[END - " ++ s) ∧
    ((lg.Trace message startMs).2 endMs).2 =
      ⟨"info", lg.tag, traceLineText endMs (endMs - startMs) message⟩ := by
  refine ⟨rfl, rfl, ⟨toString startMs ++ "(" ++ toString 0 ++ "ms)] " ++ message, ?_⟩, rfl⟩
  simp [Logger.Trace, traceLineText, String.append_assoc]

/-- C10 (as stated) is false: a `Query` call with an empty `[]string` value on
a `PATCH` builder does not panic — the loop body never runs. -/
theorem claim_C10_counterexample :
    (PATCH backgroundCtx "http://example.com").query = none ∧
    (PATCH backgroundCtx "http://example.com").Query "key" (QueryArg.strs []) =
      GoOutcome.ok (PATCH backgroundCtx "http://example.com") :=
  ⟨rfl, rfl⟩

/-- C10 (amended): `PATCH`/`PUT` leave the query map nil while `GET`/`POST`
initialise it; on a `PATCH`/`PUT` builder a `Query` call with a string or a
non-empty `[]string` panics on the nil map (an empty `[]string` is a no-op);
and `Build` on a query-free `PATCH`/`PUT` builder still succeeds with an
empty encoded query string. -/
theorem claim_C10_amended (ctx : Ctx) (ep k s w : String) (l : List String)
    (hep : okEndpoint ep = true) :
    (PATCH ctx ep).query = none ∧ (PUT ctx ep).query = none ∧
    (GET ctx ep).query = some [] ∧ (POST ctx ep).query = some [] ∧
    (PATCH ctx ep).Query k (.str s) = .panics ∧
    (PUT ctx ep).Query k (.str s) = .panics ∧
    (PATCH ctx ep).Query k (.strs (w :: l)) = .panics ∧
    (PUT ctx ep).Query k (.strs (w :: l)) = .panics ∧
    (PATCH ctx ep).Query k (.strs []) = .ok (PATCH ctx ep) ∧
    (∃ req, (PATCH ctx ep).Build.request = some req ∧ req.rawQuery = "" ∧
      (PATCH ctx ep).Build.err = none) ∧
    (∃ req, (PUT ctx ep).Build.request = some req ∧ req.rawQuery = "" ∧
      (PUT ctx ep).Build.err = none) := by
  refine ⟨rfl, rfl, rfl, rfl, rfl, rfl, rfl, rfl, rfl, ?_, ?_⟩
  · rw [Build_ok (PATCH ctx ep) rfl hep]
    exact ⟨_, rfl, rfl, rfl⟩
  · rw [Build_ok (PUT ctx ep) rfl hep]
    exact ⟨_, rfl, rfl, rfl⟩

/-- C10 witness: a concrete context and endpoint. -/
theorem claim_C10_amended_witness :
    (PATCH backgroundCtx "http://example.com").query = none ∧
      (PUT backgroundCtx "http://example.com").query = none ∧
      (GET backgroundCtx "http://example.com").query = some [] ∧
      (POST backgroundCtx "http://example.com").query = some [] ∧
      (PATCH backgroundCtx "http://example.com").Query "k" (.str "v") = .panics ∧
      (PUT backgroundCtx "http://example.com").Query "k" (.str "v") = .panics ∧
      (PATCH backgroundCtx "http://example.com").Query "k" (.strs ("a" :: [])) = .panics ∧
      (PUT backgroundCtx "http://example.com").Query "k" (.strs ("a" :: [])) = .panics ∧
      (PATCH backgroundCtx "http://example.com").Query "k" (.strs []) =
        .ok (PATCH backgroundCtx "http://example.com") ∧
      (∃ req, (PATCH backgroundCtx "http://example.com").Build.request = some req ∧
        req.rawQuery = "" ∧ (PATCH backgroundCtx "http://example.com").Build.err = none) ∧
      (∃ req, (PUT backgroundCtx "http://example.com").Build.request = some req ∧
        req.rawQuery = "" ∧ (PUT backgroundCtx "http://example.com").Build.err = none) :=
  claim_C10_amended backgroundCtx "http://example.com" "k" "v" "a" [] rfl

/-- A fold of `Header` calls only grows the header accumulator. -/
theorem fold_header_headers (b : RequestBuilder) (k : String) (vs : List String) :
    vs.foldl (fun b' v => b'.Header k v) b =
      { b with headers := vs.foldl (fun hs v => mapAppend hs k v) b.headers } := by
  induction vs generalizing b with
  | nil => rfl
  | cons v vs ih =>
    simp only [List.foldl_cons]
    rw [ih (b.Header k v)]
    rfl

/-- C2: after any sequence of `Header` calls with one key on an error-free
builder with a well-formed endpoint, the built request's value list for that
key is the builder's previous list followed by all supplied values in call
order, possibly followed by the context correlation id (`tail`). -/
theorem claim_C2 (b : RequestBuilder) (key : String) (vs : List String)
    (hb : b.err = none) (hep : okEndpoint b.endpoint = true) :
    ∃ req tail,
      ((vs.foldl (fun b' v => b'.Header key v) b).Build).request = some req ∧
      hdrValues req.header key = hdrValues b.headers key ++ vs ++ tail := by
  rw [fold_header_headers]
  rw [Build_ok { b with headers := vs.foldl (fun hs v => mapAppend hs key v) b.headers } hb hep]
  cases hc : b.ctx.corrValue with
  | none => exact ⟨_, [], rfl, by simp [hc, hdrValues_foldAppend]⟩
  | some cv =>
    cases cv with
    | str cid =>
      by_cases hk : canonicalMIMEHeaderKey CorrelationIDHeaderKey = key
      · refine ⟨_, [cid], rfl, ?_⟩
        simp only [hc, headerAdd, hk, hdrValues_mapAppend_self, hdrValues_foldAppend,
          List.append_assoc]
      · refine ⟨_, [], rfl, ?_⟩
        simp only [hc, headerAdd, hdrValues_mapAppend_ne _ _ _ _ hk, hdrValues_foldAppend]
        simp
    | nonString => exact ⟨_, [], rfl, by simp [hc, hdrValues_foldAppend]⟩

/-- C2 witness: two `Accept` values on a `GET` builder. -/
theorem claim_C2_witness :
    ∃ req tail,
      ((["application/json", "text/plain"].foldl
          (fun b' v => b'.Header "Accept" v) (GET backgroundCtx "http://example.com")).Build).request
        = some req ∧
      hdrValues req.header "Accept" =
        hdrValues (GET backgroundCtx "http://example.com").headers "Accept" ++
          ["application/json", "text/plain"] ++ tail :=
  claim_C2 (GET backgroundCtx "http://example.com") "Accept" ["application/json", "text/plain"]
    rfl rfl

/-- C5: when the context carries a string correlation id and the builder never
set the (canonicalised) correlation header itself, the built request answers
`Header.Get("x-correlation-id")` with exactly that id — injected by `Build`,
since the builder's own accumulator holds no value for the key. -/
theorem claim_C5 (b : RequestBuilder) (cid : String) (hb : b.err = none)
    (hep : okEndpoint b.endpoint = true)
    (hc : b.ctx.corrValue = some (.str cid))
    (hmanual : hdrValues b.headers (canonicalMIMEHeaderKey CorrelationIDHeaderKey) = []) :
    ∃ req, b.Build.request = some req ∧
      headerGet req.header CorrelationIDHeaderKey = cid ∧
      hdrValues req.header (canonicalMIMEHeaderKey CorrelationIDHeaderKey) = [cid] := by
  rw [Build_ok b hb hep]
  refine ⟨_, rfl, ?_, ?_⟩
  · simp [hc, headerGet, headerAdd, hdrValues_mapAppend_self, hmanual]
  · simp [hc, headerAdd, hdrValues_mapAppend_self, hmanual]

/-- C5 witness: the correlation id from the repository's own test. -/
theorem claim_C5_witness :
    ∃ req,
      (GET ⟨some (.str "03823a30-5bf8-4cd9-ac53-d12d18ab6d3d")⟩
          "http://example.com").Build.request = some req ∧
      headerGet req.header CorrelationIDHeaderKey = "03823a30-5bf8-4cd9-ac53-d12d18ab6d3d" ∧
      hdrValues req.header (canonicalMIMEHeaderKey CorrelationIDHeaderKey) =
        ["03823a30-5bf8-4cd9-ac53-d12d18ab6d3d"] :=
  claim_C5 (GET ⟨some (.str "03823a30-5bf8-4cd9-ac53-d12d18ab6d3d")⟩ "http://example.com")
    "03823a30-5bf8-4cd9-ac53-d12d18ab6d3d" rfl rfl rfl rfl

/-- A completed round trip with a status outside 200-299: the drained body
and response are kept, and the wrapped status error is returned. -/
theorem Send_status_out (b : RequestBuilder) (ics : List Interceptor) (doFn : Transport)
    (resp : HttpResp) (hb : b.err = none) (hep : okEndpoint b.endpoint = true)
    (hdo : doFn (ics.foldl (fun r i => i r) b.Build.request) = .ok resp)
    (hout : resp.statusCode < 200 ∨ resp.statusCode > 299) :
    b.Send ics doFn =
      ((⟨some resp, resp.bodyStream⟩,
        some (.withStack (.wrapf ("got status " ++ toString resp.statusCode)
          ErrUnexpectedResponseStatus))),
        [Effect.netCall (ics.foldl (fun r i => i r) b.Build.request)]) := by
  have hB := Build_ok b hb hep
  rw [hB] at hdo ⊢
  simp only [] at hdo
  simp at hdo
  simp [RequestBuilder.Send, RequestBuilder.BuildTraced, ResponseBuilder.makeRequest, hB, hdo,
    hout]

/-- A completed round trip with a 2xx status: the drained body and response
are returned without an error. -/
theorem Send_status_in (b : RequestBuilder) (ics : List Interceptor) (doFn : Transport)
    (resp : HttpResp) (hb : b.err = none) (hep : okEndpoint b.endpoint = true)
    (hdo : doFn (ics.foldl (fun r i => i r) b.Build.request) = .ok resp)
    (hin : ¬(resp.statusCode < 200 ∨ resp.statusCode > 299)) :
    b.Send ics doFn =
      ((⟨some resp, resp.bodyStream⟩, none),
        [Effect.netCall (ics.foldl (fun r i => i r) b.Build.request)]) := by
  have hB := Build_ok b hb hep
  rw [hB] at hdo ⊢
  simp at hdo
  simp [RequestBuilder.Send, RequestBuilder.BuildTraced, ResponseBuilder.makeRequest, hB, hdo,
    hin]

/-- C3: for a completed round trip, `Send` yields an error whose root cause is
`ErrUnexpectedResponseStatus` exactly when the status lies outside 200-299. -/
theorem claim_C3 (b : RequestBuilder) (ics : List Interceptor) (doFn : Transport)
    (resp : HttpResp) (hb : b.err = none) (hep : okEndpoint b.endpoint = true)
    (hdo : doFn (ics.foldl (fun r i => i r) b.Build.request) = .ok resp) :
    (∃ e, (b.Send ics doFn).1.2 = some e ∧ rootCause e = ErrUnexpectedResponseStatus) ↔
      (resp.statusCode < 200 ∨ resp.statusCode > 299) := by
  constructor
  · rintro ⟨e, he, hroot⟩
    by_contra hin
    rw [Send_status_in b ics doFn resp hb hep hdo hin] at he
    simp at he
  · intro hout
    rw [Send_status_out b ics doFn resp hb hep hdo hout]
    exact ⟨_, rfl, rfl⟩

/-- C3 witness: statuses 300 and 103 are classified as unexpected. -/
theorem claim_C3_witness :
    ((∃ e, ((GET backgroundCtx "http://example.com").Send []
          (fun _ => .ok ⟨300, ['o', 'k']⟩)).1.2 = some e ∧
        rootCause e = ErrUnexpectedResponseStatus) ↔
      ((300 : Nat) < 200 ∨ (300 : Nat) > 299)) ∧
    ((∃ e, ((GET backgroundCtx "http://example.com").Send []
          (fun _ => .ok ⟨103, []⟩)).1.2 = some e ∧
        rootCause e = ErrUnexpectedResponseStatus) ↔
      ((103 : Nat) < 200 ∨ (103 : Nat) > 299)) :=
  ⟨claim_C3 (GET backgroundCtx "http://example.com") [] (fun _ => .ok ⟨300, ['o', 'k']⟩)
      ⟨300, ['o', 'k']⟩ rfl rfl rfl,
    claim_C3 (GET backgroundCtx "http://example.com") [] (fun _ => .ok ⟨103, []⟩)
      ⟨103, []⟩ rfl rfl rfl⟩

/-- C4: on a completed round trip with a status outside 200-299, the response
object and its fully drained body are still returned to the caller, alongside
the `ErrUnexpectedResponseStatus`-rooted error. -/
theorem claim_C4 (b : RequestBuilder) (ics : List Interceptor) (doFn : Transport)
    (resp : HttpResp) (hb : b.err = none) (hep : okEndpoint b.endpoint = true)
    (hdo : doFn (ics.foldl (fun r i => i r) b.Build.request) = .ok resp)
    (hout : resp.statusCode < 200 ∨ resp.statusCode > 299) :
    (b.Send ics doFn).1.1.inner = some resp ∧
    (b.Send ics doFn).1.1.drained = resp.bodyStream ∧
    (b.Send ics doFn).1.1.Bytes = resp.bodyStream ∧
    ∃ e, (b.Send ics doFn).1.2 = some e ∧ rootCause e = ErrUnexpectedResponseStatus := by
  rw [Send_status_out b ics doFn resp hb hep hdo hout]
  exact ⟨rfl, rfl, rfl, _, rfl, rfl⟩

/-- C4 witness: a 300 response with a non-empty body. -/
theorem claim_C4_witness :
    ((GET backgroundCtx "http://example.com").Send []
        (fun _ => .ok ⟨300, ['o', 'k']⟩)).1.1.inner = some ⟨300, ['o', 'k']⟩ ∧
    ((GET backgroundCtx "http://example.com").Send []
        (fun _ => .ok ⟨300, ['o', 'k']⟩)).1.1.drained = ['o', 'k'] ∧
    ((GET backgroundCtx "http://example.com").Send []
        (fun _ => .ok ⟨300, ['o', 'k']⟩)).1.1.Bytes = ['o', 'k'] ∧
    ∃ e, ((GET backgroundCtx "http://example.com").Send []
        (fun _ => .ok ⟨300, ['o', 'k']⟩)).1.2 = some e ∧
      rootCause e = ErrUnexpectedResponseStatus :=
  claim_C4 (GET backgroundCtx "http://example.com") [] (fun _ => .ok ⟨300, ['o', 'k']⟩)
    ⟨300, ['o', 'k']⟩ rfl rfl rfl (by decide)

/-! ## Round trip of the JSON codec -/

theorem skipWS_cons (c : Char) (cs : List Char) (h : isWS c = false) :
    skipWS (c :: cs) = c :: cs := by
  simp [skipWS, List.dropWhile_cons, h]

theorem isDigit_digChar (d : Nat) (h : d < 10) : (digChar d).isDigit = true := by
  interval_cases d <;> decide

theorem digVal_digChar (d : Nat) (h : d < 10) : digVal (digChar d) = d := by
  interval_cases d <;> decide

theorem ne_of_isDigit {c c' : Char} (h : c.isDigit = true) (h' : c'.isDigit = false) :
    c ≠ c' := by
  intro he
  rw [he, h'] at h
  cases h

theorem isWS_false_of_isDigit {c : Char} (h : c.isDigit = true) : isWS c = false := by
  have h1 : c ≠ ' ' := ne_of_isDigit h (by decide)
  have h2 : c ≠ '\t' := ne_of_isDigit h (by decide)
  have h3 : c ≠ '\n' := ne_of_isDigit h (by decide)
  have h4 : c ≠ '\r' := ne_of_isDigit h (by decide)
  simp [isWS, h1, h2, h3, h4]

theorem natChars_small {n : Nat} (h : n < 10) : natChars n = [digChar n] := by
  rw [natChars]
  simp [h]

theorem natChars_big {n : Nat} (h : ¬n < 10) :
    natChars n = natChars (n / 10) ++ [digChar (n % 10)] := by
  rw [natChars]
  simp [h]

theorem natChars_head_digit (n : Nat) :
    ∃ d ds, natChars n = d :: ds ∧ d.isDigit = true := by
  induction n using Nat.strong_induction_on with
  | _ n ih =>
    by_cases h : n < 10
    · exact ⟨digChar n, [], natChars_small h, isDigit_digChar n h⟩
    · obtain ⟨d, ds, hds, hd⟩ := ih (n / 10) (Nat.div_lt_self (by omega) (by omega))
      exact ⟨d, ds ++ [digChar (n % 10)], by rw [natChars_big h, hds]; rfl, hd⟩

theorem parseDigits_natChars_aux (n : Nat) : ∀ (acc : Nat) (rest : List Char),
    parseDigits acc (natChars n ++ rest) =
      parseDigits (acc * 10 ^ (natChars n).length + n) rest := by
  induction n using Nat.strong_induction_on with
  | _ n ih =>
    intro acc rest
    by_cases h : n < 10
    · rw [natChars_small h]
      simp [parseDigits, isDigit_digChar n h, digVal_digChar n h]
    · have hlt : n / 10 < n := Nat.div_lt_self (by omega) (by omega)
      rw [natChars_big h, List.append_assoc, ih (n / 10) hlt acc _]
      simp only [List.singleton_append]
      rw [show parseDigits (acc * 10 ^ (natChars (n / 10)).length + n / 10)
            (digChar (n % 10) :: rest) =
          parseDigits ((acc * 10 ^ (natChars (n / 10)).length + n / 10) * 10 + n % 10) rest by
        simp [parseDigits, isDigit_digChar (n % 10) (by omega), digVal_digChar (n % 10) (by omega)]]
      have hacc : (acc * 10 ^ (natChars (n / 10)).length + n / 10) * 10 + n % 10 =
          acc * 10 ^ (natChars (n / 10) ++ [digChar (n % 10)]).length + n := by
        rw [List.length_append]
        simp only [List.length_singleton]
        rw [pow_succ, ← mul_assoc]
        generalize acc * (10 : Nat) ^ (natChars (n / 10)).length = Q
        omega
      rw [hacc]

theorem parseDigits_stop (n : Nat) (rest : List Char) (h : noDigitHead rest = true) :
    parseDigits n rest = (n, rest) := by
  cases rest with
  | nil => simp [parseDigits]
  | cons c cs =>
    simp only [noDigitHead, Bool.not_eq_true'] at h
    simp [parseDigits, h]

theorem parseDigits_natChars (n : Nat) (rest : List Char) (h : noDigitHead rest = true) :
    parseDigits 0 (natChars n ++ rest) = (n, rest) := by
  rw [parseDigits_natChars_aux n 0 rest]
  simp only [Nat.zero_mul, Nat.zero_add]
  exact parseDigits_stop n rest h

theorem parseNumber_renderInt (k : Int) (rest : List Char) (h : noDigitHead rest = true) :
    parseNumber (renderInt k ++ rest) = some (k, rest) := by
  by_cases hk : k < 0
  · obtain ⟨d, ds, hds, hd⟩ := natChars_head_digit k.natAbs
    have hpd := parseDigits_natChars k.natAbs rest h
    rw [hds] at hpd
    simp only [renderInt, if_pos hk, List.cons_append, hds]
    simp only [List.cons_append] at hpd ⊢
    simp [parseNumber, hd, hpd, Int.ofNat_natAbs_of_nonpos (show k ≤ 0 by omega)]
  · obtain ⟨d, ds, hds, hd⟩ := natChars_head_digit k.toNat
    have hpd := parseDigits_natChars k.toNat rest h
    rw [hds] at hpd
    simp only [renderInt, if_neg hk, hds, List.cons_append]
    simp only [List.cons_append] at hpd
    have hne : d ≠ '-' := ne_of_isDigit hd (by decide)
    simp [parseNumber, hne, hd, hpd]
    have htn : ((k.toNat : Int)) = k := Int.toNat_of_nonneg (by omega)
    omega

theorem hexVal_hexCharL (d : Nat) (h : d < 16) : hexVal (hexCharL d) = some d := by
  interval_cases d <;> decide

/-- Decoding inverts the escaping of one whole string body. -/
theorem parseStringBody_escape (s rest : List Char) :
    parseStringBody ((s.map escapeChar).flatten ++ ('"' :: rest)) = some (s, rest) := by
  induction s with
  | nil =>
    rw [parseStringBody.eq_def]
    simp
  | cons c s ih =>
    simp only [List.map_cons, List.flatten_cons, List.append_assoc]
    by_cases h1 : c = '"'
    · subst h1
      rw [show escapeChar '"' = ['\\', '"'] from by decide]
      rw [parseStringBody.eq_def]
      simp [consMap, ih]
    · by_cases h2 : c = '\\'
      · subst h2
        rw [show escapeChar '\\' = ['\\', '\\'] from by decide]
        rw [parseStringBody.eq_def]
        simp [consMap, ih]
      · by_cases h3 : c = '\n'
        · subst h3
          rw [show escapeChar '\n' = ['\\', 'n'] from by decide]
          rw [parseStringBody.eq_def]
          simp [consMap, ih]
        · by_cases h4 : c = '\r'
          · subst h4
            rw [show escapeChar '\r' = ['\\', 'r'] from by decide]
            rw [parseStringBody.eq_def]
            simp [consMap, ih]
          · by_cases h5 : c = '\t'
            · subst h5
              rw [show escapeChar '\t' = ['\\', 't'] from by decide]
              rw [parseStringBody.eq_def]
              simp [consMap, ih]
            · by_cases h6 : c.toNat < 32 ∨ c = '<' ∨ c = '>' ∨ c = '&'
              · have hlt : c.toNat < 256 := by
                  rcases h6 with h6 | h6 | h6 | h6
                  · omega
                  all_goals (subst h6; decide)
                have hguard : c.toNat < 32 ∨ c = '<' ∨ c = '>' ∨ c = '&' := h6
                have hesc : escapeChar c =
                    ['\\', 'u', '0', '0', hexCharL (c.toNat / 16), hexCharL (c.toNat % 16)] := by
                  rcases hguard with hg | hg | hg | hg
                  · simp [escapeChar, h1, h2, h3, h4, h5, hg]
                  all_goals (subst hg; decide)
                rw [hesc]
                have hh : hexVal (hexCharL (c.toNat / 16)) = some (c.toNat / 16) :=
                  hexVal_hexCharL _ (by omega)
                have hl : hexVal (hexCharL (c.toNat % 16)) = some (c.toNat % 16) :=
                  hexVal_hexCharL _ (by omega)
                have hn : c.toNat / 16 * 16 + c.toNat % 16 = c.toNat := by omega
                rw [parseStringBody.eq_def]
                simp [show hexVal '0' = some 0 from by decide, hh, hl, hn, Char.ofNat_toNat,
                  consMap, ih]
              · have hesc : escapeChar c = [c] := by
                  push_neg at h6
                  obtain ⟨h6a, h6b, h6c, h6d⟩ := h6
                  simp [escapeChar, h1, h2, h3, h4, h5, h6a, h6b, h6c, h6d]
                rw [hesc]
                rw [parseStringBody.eq_def]
                simp [h1, h2, consMap, ih]

theorem renderInt_ne_nil (k : Int) : renderInt k ≠ [] := by
  unfold renderInt
  by_cases hk : k < 0
  · simp [hk]
  · simp only [hk, if_false]
    obtain ⟨d, ds, hds, _⟩ := natChars_head_digit k.toNat
    simp [hds]

mutual
theorem costV_le (v : JVal) : costV v ≤ (renderVal v).length := by
  cases v with
  | jnull => decide
  | jbool b => cases b <;> decide
  | jnum k =>
    have h : 0 < (renderInt k).length := List.length_pos.mpr (renderInt_ne_nil k)
    simp only [costV, renderVal]
    omega
  | jstr s =>
    simp [costV, renderVal, renderString]
  | jarr xs =>
    cases xs with
    | nil => decide
    | cons v ys =>
      have h := costA_le (JArr.cons v ys)
      simp only [costV, renderVal, List.length_cons, List.length_append,
        List.length_singleton] at *
      omega
  | jobj fs =>
    cases fs with
    | nil => decide
    | cons k v gs =>
      have h := costO_le (JObj.cons k v gs)
      simp only [costV, renderVal, List.length_cons, List.length_append,
        List.length_singleton] at *
      omega
theorem costA_le (xs : JArr) : costA xs ≤ (renderArr xs).length + 1 := by
  cases xs with
  | nil => decide
  | cons v ys =>
    have hv := costV_le v
    cases ys with
    | nil =>
      simp only [costA, renderArr]
      omega
    | cons w zs =>
      have hys := costA_le (JArr.cons w zs)
      simp only [costA, renderArr, List.length_append, List.length_cons] at *
      omega
theorem costO_le (fs : JObj) : costO fs ≤ (renderObj fs).length + 1 := by
  cases fs with
  | nil => decide
  | cons k v gs =>
    have hv := costV_le v
    cases gs with
    | nil =>
      simp only [costO, renderObj, List.length_append, List.length_cons]
      omega
    | cons k2 w hs2 =>
      have hgs := costO_le (JObj.cons k2 w hs2)
      simp only [costO, renderObj, List.length_append, List.length_cons] at *
      omega
end

theorem costV_pos (v : JVal) : 1 ≤ costV v := by
  cases v with
  | jnull => decide
  | jbool b => cases b <;> decide
  | jnum k => simp [costV]
  | jstr s => simp [costV]
  | jarr xs => cases xs <;> simp [costV]
  | jobj fs => cases fs <;> simp [costV]

theorem renderVal_head (v : JVal) :
    ∃ c cs, renderVal v = c :: cs ∧ isWS c = false ∧ c ≠ ']' := by
  cases v with
  | jnull => exact ⟨'n', _, rfl, by decide, by decide⟩
  | jbool b =>
    cases b
    · exact ⟨'f', _, rfl, by decide, by decide⟩
    · exact ⟨'t', _, rfl, by decide, by decide⟩
  | jnum k =>
    by_cases hk : k < 0
    · refine ⟨'-', natChars k.natAbs, ?_, by decide, by decide⟩
      simp [renderVal, renderInt, hk]
    · obtain ⟨d, ds, hds, hd⟩ := natChars_head_digit k.toNat
      refine ⟨d, ds, ?_, isWS_false_of_isDigit hd, ne_of_isDigit hd (by decide)⟩
      simp [renderVal, renderInt, hk, hds]
  | jstr s => exact ⟨'"', _, rfl, by decide, by decide⟩
  | jarr xs => exact ⟨'[', _, rfl, by decide, by decide⟩
  | jobj fs => exact ⟨'\x7b', _, rfl, by decide, by decide⟩

theorem parseVal_succ_quote (n : Nat) (cs : List Char) :
    parseVal (n + 1) ('"' :: cs) = (parseStringBody cs).map (fun p => (JVal.jstr p.1, p.2)) := by
  rw [parseVal.eq_def]
  simp only [skipWS_cons '"' cs (by decide)]
  simp

theorem parseVal_succ_other (n : Nat) (c : Char) (cs : List Char) (hws : isWS c = false)
    (h1 : c ≠ '"') (h2 : c ≠ '\x7b') (h3 : c ≠ '[') (h4 : c ≠ 't') (h5 : c ≠ 'f')
    (h6 : c ≠ 'n') :
    parseVal (n + 1) (c :: cs) = (parseNumber (c :: cs)).map (fun p => (JVal.jnum p.1, p.2)) := by
  rw [parseVal.eq_def]
  simp only [skipWS_cons c cs hws]
  simp [h1, h2, h3, h4, h5, h6]

theorem parseVal_succ_null (n : Nat) (rest : List Char) :
    parseVal (n + 1) ('n' :: 'u' :: 'l' :: 'l' :: rest) = some (.jnull, rest) := by
  rw [parseVal.eq_def]
  simp only [skipWS_cons 'n' _ (by decide)]
  simp

theorem parseVal_succ_true (n : Nat) (rest : List Char) :
    parseVal (n + 1) ('t' :: 'r' :: 'u' :: 'e' :: rest) = some (.jbool true, rest) := by
  rw [parseVal.eq_def]
  simp only [skipWS_cons 't' _ (by decide)]
  simp

theorem parseVal_succ_false (n : Nat) (rest : List Char) :
    parseVal (n + 1) ('f' :: 'a' :: 'l' :: 's' :: 'e' :: rest) = some (.jbool false, rest) := by
  rw [parseVal.eq_def]
  simp only [skipWS_cons 'f' _ (by decide)]
  simp

theorem parseVal_succ_arrnil (n : Nat) (cs r : List Char) (hcs : skipWS cs = ']' :: r) :
    parseVal (n + 1) ('[' :: cs) = some (.jarr .nil, r) := by
  rw [parseVal.eq_def]
  simp only [skipWS_cons '[' cs (by decide)]
  simp [hcs]

theorem parseVal_succ_arr (n : Nat) (cs : List Char) (d : Char) (r : List Char)
    (hcs : skipWS cs = d :: r) (hd : d ≠ ']') :
    parseVal (n + 1) ('[' :: cs) =
      (parseElems n (d :: r)).map (fun p => (JVal.jarr p.1, p.2)) := by
  rw [parseVal.eq_def]
  simp only [skipWS_cons '[' cs (by decide)]
  simp [hcs, hd]

theorem parseVal_succ_objnil (n : Nat) (cs r : List Char) (hcs : skipWS cs = '\x7d' :: r) :
    parseVal (n + 1) ('\x7b' :: cs) = some (.jobj .nil, r) := by
  rw [parseVal.eq_def]
  simp only [skipWS_cons '\x7b' cs (by decide)]
  simp [hcs]

theorem parseVal_succ_obj (n : Nat) (cs : List Char) (d : Char) (r : List Char)
    (hcs : skipWS cs = d :: r) (hd : d ≠ '\x7d') :
    parseVal (n + 1) ('\x7b' :: cs) =
      (parseFields n (d :: r)).map (fun p => (JVal.jobj p.1, p.2)) := by
  rw [parseVal.eq_def]
  simp only [skipWS_cons '\x7b' cs (by decide)]
  simp [hcs, hd]

/-- The parser inverts the renderer: with fuel at least the value's cost,
parsing the rendering (followed by any remainder that does not begin with a
digit, or by the closing bracket of the enclosing array/object) returns the
value and the remainder. -/
theorem parse_render (n : Nat) :
    (∀ v rest, costV v ≤ n → noDigitHead rest = true →
        parseVal n (renderVal v ++ rest) = some (v, rest)) ∧
    (∀ v xs rest, costA (JArr.cons v xs) ≤ n →
        parseElems n (renderArr (JArr.cons v xs) ++ (']' :: rest)) =
          some (JArr.cons v xs, rest)) ∧
    (∀ k0 v fs rest, costO (JObj.cons k0 v fs) ≤ n →
        parseFields n (renderObj (JObj.cons k0 v fs) ++ ('\x7d' :: rest)) =
          some (JObj.cons k0 v fs, rest)) := by
  induction n using Nat.strong_induction_on with
  | _ n ih =>
    cases n with
    | zero =>
      refine ⟨?_, ?_, ?_⟩
      · intro v rest hc _
        have := costV_pos v
        omega
      · intro v xs rest hc
        have := costV_pos v
        simp only [costA] at hc
        omega
      · intro k0 v fs rest hc
        have := costV_pos v
        simp only [costO] at hc
        omega
    | succ m =>
      obtain ⟨ihV, ihA, ihO⟩ := ih m (by omega)
      refine ⟨?_, ?_, ?_⟩
      · intro v rest hc hnd
        cases v with
        | jnull =>
          show parseVal (m + 1) (('n' :: 'u' :: 'l' :: 'l' :: []) ++ rest) = _
          simp only [List.cons_append, List.nil_append]
          exact parseVal_succ_null m rest
        | jbool b =>
          cases b
          · show parseVal (m + 1) (('f' :: 'a' :: 'l' :: 's' :: 'e' :: []) ++ rest) = _
            simp only [List.cons_append, List.nil_append]
            exact parseVal_succ_false m rest
          · show parseVal (m + 1) (('t' :: 'r' :: 'u' :: 'e' :: []) ++ rest) = _
            simp only [List.cons_append, List.nil_append]
            exact parseVal_succ_true m rest
        | jnum k =>
          have hp := parseNumber_renderInt k rest hnd
          by_cases hk : k < 0
          · have hri : renderInt k = '-' :: natChars k.natAbs := by
              simp [renderInt, hk]
            rw [show renderVal (JVal.jnum k) = '-' :: natChars k.natAbs from hri,
              List.cons_append]
            rw [parseVal_succ_other m '-' _ (by decide) (by decide) (by decide) (by decide)
              (by decide) (by decide) (by decide)]
            rw [hri, List.cons_append] at hp
            rw [hp]
            rfl
          · obtain ⟨d, ds, hds, hd⟩ := natChars_head_digit k.toNat
            have hri : renderInt k = d :: ds := by
              simp [renderInt, hk, hds]
            rw [show renderVal (JVal.jnum k) = d :: ds from hri, List.cons_append]
            rw [parseVal_succ_other m d _ (isWS_false_of_isDigit hd)
              (ne_of_isDigit hd (by decide)) (ne_of_isDigit hd (by decide))
              (ne_of_isDigit hd (by decide)) (ne_of_isDigit hd (by decide))
              (ne_of_isDigit hd (by decide)) (ne_of_isDigit hd (by decide))]
            rw [hri, List.cons_append] at hp
            rw [hp]
            rfl
        | jstr s =>
          show parseVal (m + 1)
              (('"' :: ((s.map escapeChar).flatten ++ ['"'])) ++ rest) = _
          rw [List.cons_append, List.append_assoc, parseVal_succ_quote]
          rw [show ((['"'] : List Char) ++ rest) = '"' :: rest from rfl]
          rw [parseStringBody_escape s rest]
          rfl
        | jarr xs =>
          cases xs with
          | nil =>
            show parseVal (m + 1) (('[' :: (([] : List Char) ++ [']'])) ++ rest) = _
            simp only [List.nil_append, List.cons_append, List.singleton_append]
            exact parseVal_succ_arrnil m (']' :: rest) rest (skipWS_cons ']' rest (by decide))
          | cons v ys =>
            obtain ⟨c0, cs0, hv0, hws0, hbr0⟩ := renderVal_head v
            have hT : ∃ T, renderArr (JArr.cons v ys) = renderVal v ++ T := by
              cases ys
              · exact ⟨[], by simp [renderArr]⟩
              · exact ⟨_, rfl⟩
            obtain ⟨T, hT⟩ := hT
            have hshape : renderArr (JArr.cons v ys) ++ (']' :: rest) =
                c0 :: (cs0 ++ (T ++ (']' :: rest))) := by
              rw [hT, hv0]
              simp [List.append_assoc]
            show parseVal (m + 1)
                (('[' :: (renderArr (JArr.cons v ys) ++ [']'])) ++ rest) = _
            rw [List.cons_append, List.append_assoc]
            rw [show (([']'] : List Char) ++ rest) = ']' :: rest from rfl]
            rw [parseVal_succ_arr m _ c0 _
              (by rw [hshape]; exact skipWS_cons _ _ hws0) hbr0]
            rw [← hshape]
            rw [ihA v ys rest (by simp only [costV] at hc; omega)]
            rfl
        | jobj fs =>
          cases fs with
          | nil =>
            show parseVal (m + 1) (('\x7b' :: (([] : List Char) ++ ['\x7d'])) ++ rest) = _
            simp only [List.nil_append, List.cons_append, List.singleton_append]
            exact parseVal_succ_objnil m ('\x7d' :: rest) rest
              (skipWS_cons '\x7d' rest (by decide))
          | cons k0 v0 gs =>
            have hT : ∃ T, renderObj (JObj.cons k0 v0 gs) = renderString k0 ++ T := by
              cases gs with
              | nil => exact ⟨_, rfl⟩
              | cons k2 v2 gs2 =>
                refine ⟨(':' :: renderVal v0) ++ (',' :: renderObj (JObj.cons k2 v2 gs2)), ?_⟩
                simp [renderObj, List.append_assoc]
            obtain ⟨T, hT⟩ := hT
            have hshape : renderObj (JObj.cons k0 v0 gs) ++ ('\x7d' :: rest) =
                '"' :: (((k0.map escapeChar).flatten ++ ['"']) ++ (T ++ ('\x7d' :: rest))) := by
              rw [hT]
              simp [renderString, List.append_assoc]
            show parseVal (m + 1)
                (('\x7b' :: (renderObj (JObj.cons k0 v0 gs) ++ ['\x7d'])) ++ rest) = _
            rw [List.cons_append, List.append_assoc]
            rw [show ((['\x7d'] : List Char) ++ rest) = '\x7d' :: rest from rfl]
            rw [parseVal_succ_obj m _ '"' _
              (by rw [hshape]; exact skipWS_cons _ _ (by decide)) (by decide)]
            rw [← hshape]
            rw [ihO k0 v0 gs rest (by simp only [costV] at hc; omega)]
            rfl
      · intro v xs rest hca
        cases xs with
        | nil =>
          show parseElems (m + 1) (renderVal v ++ (']' :: rest)) = _
          rw [parseElems.eq_def]
          simp only [ihV v (']' :: rest) (by simp only [costA] at hca; omega) rfl]
          simp only [skipWS_cons ']' rest (by decide)]
          simp
        | cons w zs =>
          show parseElems (m + 1)
              ((renderVal v ++ (',' :: renderArr (JArr.cons w zs))) ++ (']' :: rest)) = _
          rw [parseElems.eq_def]
          simp only [List.append_assoc, List.cons_append]
          rw [ihV v (',' :: (renderArr (JArr.cons w zs) ++ (']' :: rest)))
            (by simp only [costA] at hca ⊢; omega) rfl]
          simp only [skipWS_cons ',' _ (by decide)]
          rw [ihA w zs rest (by simp only [costA] at hca ⊢; omega)]
          simp
      · intro k0 v0 fs rest hco
        cases fs with
        | nil =>
          show parseFields (m + 1)
              ((renderString k0 ++ (':' :: renderVal v0)) ++ ('\x7d' :: rest)) = _
          rw [parseFields.eq_def]
          simp only [renderString, List.cons_append, List.append_assoc,
            List.singleton_append]
          simp only [skipWS_cons '"' _ (by decide)]
          simp only [if_true, List.nil_append, parseStringBody_escape k0]
          simp only [skipWS_cons ':' _ (by decide), if_true]
          rw [ihV v0 ('\x7d' :: rest) (by simp only [costO] at hco; omega) rfl]
          simp only [skipWS_cons '\x7d' _ (by decide)]
          simp
        | cons k1 v1 gs =>
          have hro : renderObj (JObj.cons k0 v0 (JObj.cons k1 v1 gs)) =
              renderString k0 ++ (':' :: (renderVal v0 ++
                (',' :: renderObj (JObj.cons k1 v1 gs)))) := by
            simp [renderObj, List.append_assoc]
          rw [hro]
          rw [parseFields.eq_def]
          simp only [renderString, List.cons_append, List.append_assoc,
            List.singleton_append]
          simp only [skipWS_cons '"' _ (by decide)]
          simp only [if_true, List.nil_append, parseStringBody_escape k0]
          simp only [skipWS_cons ':' _ (by decide), if_true]
          rw [ihV v0 (',' :: (renderObj (JObj.cons k1 v1 gs) ++ ('\x7d' :: rest)))
            (by simp only [costO] at hco ⊢; omega) rfl]
          simp only [skipWS_cons ',' _ (by decide)]
          rw [ihO k1 v1 gs rest (by simp only [costO] at hco ⊢; omega)]
          simp

/-- Round trip of the modelled `encoding/json` collaborator:
`Unmarshal` inverts `Marshal` on every JSON value. -/
theorem jsonUnmarshal_renderVal (v : JVal) : jsonUnmarshal (renderVal v) = .ok v := by
  unfold jsonUnmarshal
  have h := (parse_render ((renderVal v).length + 1)).1 v []
    (le_trans (costV_le v) (by omega)) rfl
  rw [List.append_nil] at h
  rw [h]
  simp [skipWS]

/-- C7: on an error-free builder, `JSON(v)` sets the request body to exactly
the marshalled bytes of `v`, records no error, and decoding those bytes
(as `Response.JSON` does, via `json.Unmarshal`) yields a value equal to `v`. -/
theorem claim_C7 (b : RequestBuilder) (v : JVal) (hb : b.err = none) :
    (b.JSON (GoValue.jsonLike v)).body = some (renderVal v) ∧
    (b.JSON (GoValue.jsonLike v)).err = none ∧
    jsonMarshal (GoValue.jsonLike v) = .ok (renderVal v) ∧
    jsonUnmarshal (renderVal v) = .ok v ∧
    ResponseVal.JSONDecode ⟨none, renderVal v⟩ = .ok v := by
  refine ⟨?_, ?_, rfl, jsonUnmarshal_renderVal v, jsonUnmarshal_renderVal v⟩
  · simp [RequestBuilder.JSON, hb, jsonMarshal, RequestBuilder.Body]
  · simp [RequestBuilder.JSON, hb, jsonMarshal, RequestBuilder.Body]

/-- C7 witness: a concrete object with a string key, a negative number, a
boolean and a nested array. -/
theorem claim_C7_witness :
    ((POST backgroundCtx "http://example.com").JSON
        (GoValue.jsonLike (JVal.jobj (.cons ['k'] (.jarr (.cons (.jnum (-3))
          (.cons (.jbool true) .nil))) .nil)))).body =
      some (renderVal (JVal.jobj (.cons ['k'] (.jarr (.cons (.jnum (-3))
        (.cons (.jbool true) .nil))) .nil))) ∧
    ((POST backgroundCtx "http://example.com").JSON
        (GoValue.jsonLike (JVal.jobj (.cons ['k'] (.jarr (.cons (.jnum (-3))
          (.cons (.jbool true) .nil))) .nil)))).err = none ∧
    jsonMarshal (GoValue.jsonLike (JVal.jobj (.cons ['k'] (.jarr (.cons (.jnum (-3))
        (.cons (.jbool true) .nil))) .nil))) =
      .ok (renderVal (JVal.jobj (.cons ['k'] (.jarr (.cons (.jnum (-3))
        (.cons (.jbool true) .nil))) .nil))) ∧
    jsonUnmarshal (renderVal (JVal.jobj (.cons ['k'] (.jarr (.cons (.jnum (-3))
        (.cons (.jbool true) .nil))) .nil))) =
      .ok (JVal.jobj (.cons ['k'] (.jarr (.cons (.jnum (-3))
        (.cons (.jbool true) .nil))) .nil)) ∧
    ResponseVal.JSONDecode ⟨none, renderVal (JVal.jobj (.cons ['k'] (.jarr (.cons (.jnum (-3))
        (.cons (.jbool true) .nil))) .nil))⟩ =
      .ok (JVal.jobj (.cons ['k'] (.jarr (.cons (.jnum (-3))
        (.cons (.jbool true) .nil))) .nil)) :=
  claim_C7 (POST backgroundCtx "http://example.com")
    (JVal.jobj (.cons ['k'] (.jarr (.cons (.jnum (-3)) (.cons (.jbool true) .nil))) .nil)) rfl

end Reqwest
